import Mathlib

/-!
Verification of the cascading-failure ("blackout") driver of GridCal,
file `UnderDevelopment/GridCal/Engine/BlackOutDriver.py`.

The Python module is shallowly embedded below.  Branch loadings and
probabilities are modelled as rationals, the per-branch enabled/disabled
array as a total map `Nat → Bool`, and every external collaborator
(power-flow solver, Latin-hypercube sampler, topology compiler,
`np.random.randint`, the cooperative cancellation flag) as an oracle
parameter supplied to the embedded controller.  Python calls that raise
are embedded as `Except.error` values carrying the exception kind.
-/

set_option maxHeartbeats 1000000

namespace BlackOutDriver

/-- Embeds the enum `CascadeType` of the source. -/
inductive CascadeType
  | PowerFlow
  | LatinHypercube
deriving DecidableEq, Inhabited

/-- Embeds the class `CascadingReportElement`: the removed branch indices of
one cascade step, an opaque token standing for the power-flow results
snapshot, and the criteria string. -/
structure CascadingReportElement where
  removed_idx : List Nat
  pf_results : Nat
  criteria : String
deriving DecidableEq, Inhabited

/-- Embeds the class `CascadingResults`: the cascade kind together with the
ordered event list. -/
structure CascadingResults where
  cascade_type : CascadeType
  events : List CascadingReportElement
deriving DecidableEq, Inhabited

/-- Embeds the Python expression `self.events[i][0]` appearing in
`CascadingResults.get_failed_idx`.  The class `CascadingReportElement`
defines no element access, so subscripting one of its instances raises
`TypeError` in Python; the embedding returns the corresponding error. -/
def reportElementGetItem (_e : CascadingReportElement) (_i : Nat) :
    Except String (List Nat) :=
  .error "TypeError: CascadingReportElement object is not subscriptable"

/-- Embeds the loop of `CascadingResults.get_failed_idx`: `res` starts as
`None`; for each event the code evaluates `self.events[i][0]` and either
assigns it (first event) or concatenates via `np.r_`.  Since the subscript
raises, any non-empty event list yields the error; the empty list returns
the initial `None`. -/
def get_failed_idx_loop (res : Option (List Nat)) :
    List CascadingReportElement → Except String (Option (List Nat))
  | [] => .ok res
  | e :: es => do
      let x ← reportElementGetItem e 0
      get_failed_idx_loop (some ((res.getD []) ++ x)) es

/-- Embeds `CascadingResults.get_failed_idx`. -/
def CascadingResults.get_failed_idx (r : CascadingResults) :
    Except String (Option (List Nat)) :=
  get_failed_idx_loop none r.events

/-- Embeds the loop of `CascadingResults.get_table`, carrying the running
step number: each event `e` contributes the row
`('Step ' + str(i + 1), len(e.removed_idx), e.criteria)`. -/
def get_table_loop : Nat → List CascadingReportElement → List (String × Nat × String)
  | _, [] => []
  | i, e :: es =>
      ( "Step " ++ toString (i + 1), e.removed_idx.length, e.criteria) :: get_table_loop (i + 1) es

/-- Embeds `CascadingResults.get_table` (rows of the returned DataFrame). -/
def CascadingResults.get_table (r : CascadingResults) : List (String × Nat × String) :=
  get_table_loop 0 r.events

/-- Embeds the class `NumericalCircuit` as far as the driver touches it: the
mutable per-branch enabled state `branch_states`, modelled as a total map. -/
structure NumericalCircuit where
  branch_states : Nat → Bool

/-- Embeds the single assignment `branch_states[i] = False`. -/
def setFalse (st : Nat → Bool) (i : Nat) : Nat → Bool :=
  fun j => if j = i then false else st j

/-- Embeds the loop `for i in idx: circuit.branch_states[i] = False`. -/
def disableAll (st : Nat → Bool) (is : List Nat) : Nat → Bool :=
  is.foldl setFalse st

/-- Embeds `abs(loading_vector)` applied elementwise. -/
def absList (l : List ℚ) : List ℚ :=
  l.map (fun x => |x|)

/-- Embeds `np.where(cond(v))[0]`: the ascending list of positions of `v`
whose entry satisfies the condition. -/
def npWhere (l : List ℚ) (p : ℚ → Bool) : List Nat :=
  (List.range l.length).filter (fun i => p (l.getD i 0))

/-- Embeds Python `max` over a possibly empty sequence (`load.max()` in
the source): `none` when the sequence is empty, in which case NumPy raises. -/
def pymax : List ℚ → Option ℚ
  | [] => none
  | x :: xs => some (xs.foldl max x)

/-- Embeds the static method `Cascading.remove_elements`.  With explicit
indices it disables exactly those.  Otherwise it takes `load = abs(loading)`,
selects `np.where(load > 1.0)[0]`, and if that is empty falls back to
`np.where(load >= load.max())[0]`; on an empty loading vector `load.max()`
raises, embedded as the error branch. -/
def remove_elements (circuit : NumericalCircuit) (loading_vector : List ℚ)
    (idx : Option (List Nat)) : Except String (NumericalCircuit × List Nat) :=
  match idx with
  | some is => .ok (⟨disableAll circuit.branch_states is⟩, is)
  | none =>
      let load := absList loading_vector
      let idx1 := npWhere load (fun x => decide (1 < x))
      if idx1.length = 0 then
        match pymax load with
        | none =>
            .error "ValueError: zero-size array to reduction operation maximum"
        | some m =>
            let idx2 := npWhere load (fun x => decide (m ≤ x))
            .ok (⟨disableAll circuit.branch_states idx2⟩, idx2)
      else
        .ok (⟨disableAll circuit.branch_states idx1⟩, idx1)

/-- Embeds the tuple returned by `results.get_index_loading_cdf(max_val)`:
overload candidate indices, their values, their probabilities, and the
loading array. -/
structure CdfData where
  idx : List Nat
  val : List ℚ
  prob : List ℚ
  loading : List ℚ

/-- Accumulator of the `for i, idx_val in enumerate(idx)` loop of
`Cascading.remove_probability_based`. -/
structure ProbAcc where
  st : Nat → Bool
  indices : List Nat
  any_removed : Bool
  criteria : String

/-- Embeds one pass of the enumerate loop: position `i` is a hit when
`prob[i] >= min_prob`; a hit disables branch `idx[i]`, appends it, sets the
flag and the criteria string. -/
def probStep (d : CdfData) (min_prob : ℚ) (a : ProbAcc) (i : Nat) : ProbAcc :=
  if min_prob ≤ d.prob.getD i 0 then
    { st := setFalse a.st (d.idx.getD i 0)
      indices := a.indices ++ [d.idx.getD i 0]
      any_removed := true
      criteria := "Overload probability > " ++ toString min_prob }
  else a

/-- Embeds the static method `Cascading.remove_probability_based`.
`results` is the oracle behind `get_index_loading_cdf`, and `randDraw` the
value produced by `np.random.randint(0, len(idx))` in the random fallback
(so `randDraw < len idx` whenever that call returns).  Note the source uses
the raw draw `idx_val = np.random.randint(0, len(idx))` itself as the branch
index to disable, not `idx[idx_val]`.  In the max-loading fallback the
source takes the first position of `loading` attaining `max(loading)`. -/
def remove_probability_based (numerical_circuit : NumericalCircuit)
    (results : ℚ → CdfData) (max_val min_prob : ℚ) (randDraw : Nat) :
    NumericalCircuit × List Nat × String :=
  let d := results max_val
  let a := (List.range d.idx.length).foldl (probStep d min_prob)
    ⟨numerical_circuit.branch_states, [], false, "None"⟩
  if a.any_removed then
    (⟨a.st⟩, a.indices, a.criteria)
  else
    match d.loading with
    | [] => (⟨a.st⟩, [], "No branches")
    | x :: xs =>
        if 0 < d.idx.length then
          (⟨setFalse a.st randDraw⟩, a.indices ++ [randDraw], "Random with overloads")
        else
          let m := xs.foldl max x
          let idx_val := (npWhere (x :: xs) (fun v => decide (v = m))).getD 0 0
          (⟨setFalse a.st idx_val⟩, a.indices ++ [idx_val], "Max loading, Overloads not seen")

/-- Embeds the call `self.remove_elements(self.grid, idx=self.triggering_idx)`
(and the no-`idx` variant) made by `Cascading.perform_step_run`.  Both call
sites bind `self.grid` to the parameter `circuit` and leave the required
positional parameter `loading_vector` of `remove_elements` unbound, so
Python raises `TypeError` before the body of `remove_elements` runs. -/
def removeElementsCallNoLoading (_idx : Option (List Nat)) : Except String (List Nat) :=
  .error "TypeError: remove_elements missing 1 required positional argument loading_vector"

/-- Embeds the call `CascadingReportElement(idx, model_simulator.results)`
of `Cascading.perform_step_run`: the constructor takes three required
positional parameters and the call supplies only two, so Python raises
`TypeError` (the `criteria` argument is missing). -/
def reportElementTwoArgs (_removed : List Nat) (_pf : Nat) :
    Except String CascadingReportElement :=
  .error "TypeError: CascadingReportElement missing 1 required positional argument criteria"

/-- Embeds the mutable state of a `Cascading` controller instance that
`perform_step_run` touches: the configured triggering indices, the step
counter and the result log. -/
structure Cascading where
  triggering_idx : Option (List Nat)
  current_step : Nat
  results : CascadingResults

/-- Embeds `Cascading.perform_step_run`.  Grid recompilation and the solver
run are external and leave the modelled state unchanged; on the first step
the code calls `remove_elements` with the triggering indices, otherwise
without them — but both call sites omit the required `loading_vector`
argument, so the step raises before any event is appended, before the step
counter is incremented and before any completion signal is emitted.  The
subsequent two-argument `CascadingReportElement` construction (itself also a
`TypeError`) and the log append are kept for shape; they are unreachable. -/
def Cascading.perform_step_run (c : Cascading) : Except String Cascading := do
  let idx ← (if c.current_step = 0 then removeElementsCallNoLoading c.triggering_idx
             else removeElementsCallNoLoading none)
  let entry ← reportElementTwoArgs idx 0
  .ok { c with
        results := { c.results with events := c.results.events ++ [entry] }
        current_step := c.current_step + 1 }

/-- Embeds the bound computation at the start of `Cascading.run`:
`n_grids = len(calculation_inputs) + self.max_additional_islands`, then the
safety check `if n_grids > len(self.grid.buses): n_grids = len(self.grid.buses) - 1`. -/
def n_grids (islands buses max_additional_islands : Nat) : Nat :=
  if islands + max_additional_islands > buses then buses - 1
  else islands + max_additional_islands

/-- Oracles and configuration feeding one invocation of `Cascading.run`:
the initial island count produced by the first `compute()`, the bus count,
the configured island tolerance, the initial branch states, and per
iteration the solver CDF data, the recompiled island count, the
`np.random.randint` draw and the value of the cooperative cancellation flag
observed at that iteration's end-of-loop check. -/
structure RunEnv where
  initial_islands : Nat
  bus_count : Nat
  max_additional_islands : Nat
  branch_states0 : Nat → Bool
  cdf : Nat → CdfData
  recompute : Nat → Nat
  rand : Nat → Nat
  cancelFlag : Nat → Bool

/-- State carried through the while loop of `Cascading.run`: current island
count, iteration counter `it`, branch states, the event log, the list of
per-iteration progress fractions (the loop emits each one scaled by 100),
and the status texts emitted so far. -/
structure RunState where
  islands : Nat
  it : Nat
  branch_states : Nat → Bool
  events : List CascadingReportElement
  progs : List ℚ
  progTexts : List String

/-- Embeds one body execution of the while loop of `Cascading.run`: solver
run, probability-based removal with `max_val=1.0` and `min_prob=0.1`
(`mkRat 1 10` is the exact rational value 0.1), event append (the result
snapshot token is the iteration number), topology recompile, iteration
increment, and the progress fraction
`max(len(calculation_inputs)/(n_grids+1), it/(n_grids+1))` computed with the
updated island count and the incremented `it`; `mkRat a b` is the exact
rational value of the Python division `a / b` with `b > 0`. -/
def runIter (env : RunEnv) (ng : Nat) (s : RunState) : RunState :=
  let r := remove_probability_based ⟨s.branch_states⟩ (fun _ => env.cdf s.it) 1 (mkRat 1 10)
    (env.rand s.it)
  let isl := env.recompute s.it
  { islands := isl
    it := s.it + 1
    branch_states := r.1.branch_states
    events := s.events ++ [⟨r.2.1, s.it, r.2.2⟩]
    progs := s.progs ++ [max (mkRat isl (ng + 1)) (mkRat (s.it + 1) (ng + 1))]
    progTexts := s.progTexts }

/-- Embeds the while loop of `Cascading.run`, guarded by
`len(calculation_inputs) <= n_grids and it <= n_grids`; after each body the
code checks `if self.__cancel__: break`.  The `cancel` method emits the text
"Cancelled" at call time (together with a progress reset and a done
signal); the merged trace therefore carries that text at the boundary where
the loop observes the flag.  The fuel argument is exact, never truncating:
`run` supplies `n_grids + 1` and each iteration increments `it`, so fuel
reaches `0` only when `it = n_grids + 1`, where the guard is false anyway. -/
def runLoop (env : RunEnv) (ng : Nat) : Nat → RunState → RunState
  | 0, s => s
  | fuel + 1, s =>
      if s.islands ≤ ng ∧ s.it ≤ ng then
        (if env.cancelFlag s.it then
          { runIter env ng s with progTexts := (runIter env ng s).progTexts ++ [ "Cancelled"] }
        else runLoop env ng fuel (runIter env ng s))
      else s

/-- Embeds `Cascading.run`: fresh results, the status text
"Running cascading failure...", the bound `n_grids`, the loop, and the
terminal progress reset with status text "Done!" emitted on every path
(normal exit or cancellation break). -/
def run (env : RunEnv) : RunState :=
  let ng := n_grids env.initial_islands env.bus_count env.max_additional_islands
  let s := runLoop env ng (ng + 1)
    { islands := env.initial_islands
      it := 0
      branch_states := env.branch_states0
      events := []
      progs := []
      progTexts := [ "Running cascading failure..."] }
  { s with progTexts := s.progTexts ++ [ "Done!"] }

/-- Plumbing: whether an embedded Python call returned normally. -/
def isOkE {α : Type} : Except String α → Bool
  | .ok _ => true
  | .error _ => false

/-- Plumbing: the index list of a successful `remove_elements` call, `[]`
on the error branch. -/
def okIdx (r : Except String (NumericalCircuit × List Nat)) : List Nat :=
  match r with
  | .ok p => p.2
  | .error _ => []

/-! ### Helper lemmas -/

lemma mem_npWhere {l : List ℚ} {p : ℚ → Bool} {i : Nat} :
    i ∈ npWhere l p ↔ i < l.length ∧ p (l.getD i 0) = true := by
  simp [npWhere, List.mem_filter, List.mem_range]

lemma absList_length (l : List ℚ) : (absList l).length = l.length := by
  simp [absList]

lemma absList_getD {l : List ℚ} {i : Nat} (h : i < l.length) :
    (absList l).getD i 0 = |l.getD i 0| := by
  have h' : i < (absList l).length := by rwa [absList_length]
  rw [List.getD_eq_getElem _ _ h', List.getD_eq_getElem _ _ h]
  simp [absList]

lemma foldl_max_init_le (xs : List ℚ) (x : ℚ) : x ≤ xs.foldl max x := by
  induction xs generalizing x with
  | nil => exact le_refl x
  | cons y ys ih => exact le_trans (le_max_left x y) (ih (max x y))

lemma foldl_max_le_of_mem {xs : List ℚ} {y : ℚ} (x : ℚ) (hy : y ∈ xs) :
    y ≤ xs.foldl max x := by
  induction xs generalizing x with
  | nil => cases hy
  | cons z zs ih =>
    rcases List.mem_cons.1 hy with h | h
    · subst h
      exact le_trans (le_max_right x y) (foldl_max_init_le zs (max x y))
    · exact ih (max x z) h

lemma foldl_max_mem (xs : List ℚ) (x : ℚ) :
    xs.foldl max x = x ∨ xs.foldl max x ∈ xs := by
  induction xs generalizing x with
  | nil => exact Or.inl rfl
  | cons y ys ih =>
    rcases ih (max x y) with h | h
    · rcases max_choice x y with hc | hc
      · exact Or.inl (by rw [List.foldl_cons, h, hc])
      · exact Or.inr (by rw [List.foldl_cons, h, hc]; exact List.mem_cons_self y ys)
    · exact Or.inr (by rw [List.foldl_cons]; exact List.mem_cons_of_mem y h)

lemma pymax_is_ub {l : List ℚ} {m : ℚ} (h : pymax l = some m) :
    ∀ y ∈ l, y ≤ m := by
  cases l with
  | nil => simp [pymax] at h
  | cons x xs =>
    simp only [pymax, Option.some.injEq] at h
    intro y hy
    rcases List.mem_cons.1 hy with h' | h'
    · subst h'; rw [← h]; exact foldl_max_init_le xs y
    · rw [← h]; exact foldl_max_le_of_mem x h'

lemma pymax_mem {l : List ℚ} {m : ℚ} (h : pymax l = some m) : m ∈ l := by
  cases l with
  | nil => simp [pymax] at h
  | cons x xs =>
    simp only [pymax, Option.some.injEq] at h
    rcases foldl_max_mem xs x with h' | h'
    · rw [← h, h']; exact List.mem_cons_self x xs
    · rw [← h]; exact List.mem_cons_of_mem x h'

lemma getD_mem {l : List ℚ} {i : Nat} (h : i < l.length) : l.getD i 0 ∈ l := by
  rw [List.getD_eq_getElem _ _ h]
  exact List.getElem_mem h

lemma setFalse_apply (st : Nat → Bool) (v j : Nat) :
    setFalse st v j = if j = v then false else st j := rfl

lemma disableAll_apply (is : List Nat) (st : Nat → Bool) (j : Nat) :
    disableAll st is j = if j ∈ is then false else st j := by
  induction is generalizing st with
  | nil => simp [disableAll]
  | cons v vs ih =>
    simp only [disableAll, List.foldl_cons] at *
    rw [ih (setFalse st v)]
    by_cases hv : j ∈ vs
    · simp [hv]
    · by_cases hj : j = v
      · simp [hv, hj, setFalse]
      · simp [hv, hj, setFalse, List.mem_cons]

lemma probFold_frame (d : CdfData) (mp : ℚ) (st0 : Nat → Bool) :
    ∀ (l : List Nat) (a : ProbAcc),
      (∀ j, a.st j = if j ∈ a.indices then false else st0 j) →
      ∀ j, (l.foldl (probStep d mp) a).st j =
        if j ∈ (l.foldl (probStep d mp) a).indices then false else st0 j := by
  intro l
  induction l with
  | nil => intro a h j; exact h j
  | cons i is ih =>
    intro a h j
    simp only [List.foldl_cons]
    apply ih
    intro j'
    unfold probStep
    split
    · dsimp only
      set v := d.idx.getD i 0 with hv
      by_cases hji : j' = v
      · subst hji
        simp [setFalse, List.mem_append]
      · rw [setFalse_apply, if_neg hji, h j']
        have hmm : (j' ∈ a.indices ++ [v]) ↔ (j' ∈ a.indices) := by
          simp [List.mem_append, hji]
        exact (if_congr hmm rfl rfl).symm
    · exact h j'

lemma probStep_removed_mono (d : CdfData) (mp : ℚ) (a : ProbAcc) (i : Nat)
    (h : a.any_removed = true) : (probStep d mp a i).any_removed = true := by
  unfold probStep
  split <;> simp [h]

lemma probFold_removed_mono (d : CdfData) (mp : ℚ) :
    ∀ (l : List Nat) (a : ProbAcc), a.any_removed = true →
      (l.foldl (probStep d mp) a).any_removed = true := by
  intro l
  induction l with
  | nil => intro a h; exact h
  | cons i is ih =>
    intro a h
    simp only [List.foldl_cons]
    exact ih _ (probStep_removed_mono d mp a i h)

lemma probFold_not_removed (d : CdfData) (mp : ℚ) :
    ∀ (l : List Nat) (a : ProbAcc),
      (l.foldl (probStep d mp) a).any_removed = false →
      l.foldl (probStep d mp) a = a := by
  intro l
  induction l with
  | nil => intro a _; rfl
  | cons i is ih =>
    intro a h
    simp only [List.foldl_cons] at h ⊢
    by_cases hit : mp ≤ d.prob.getD i 0
    · exfalso
      have : (probStep d mp a i).any_removed = true := by
        unfold probStep
        rw [if_pos hit]
      rw [probFold_removed_mono d mp is _ this] at h
      simp at h
    · have hstep : probStep d mp a i = a := by
        unfold probStep
        rw [if_neg hit]
      rw [hstep] at h ⊢
      exact ih a h

/-- The progress fraction emitted by iteration `t` of the loop (the loop
scales it by 100 for the signal): the island count after iteration `t`'s
recompile over `n_grids + 1`, against the incremented iteration counter
over `n_grids + 1`. -/
def progFrac (env : RunEnv) (ng : Nat) (t : Nat) : ℚ :=
  max (mkRat (env.recompute t) (ng + 1)) (mkRat (t + 1) (ng + 1))

lemma progFrac_eq (env : RunEnv) (ng t : Nat) :
    progFrac env ng t =
      max ((env.recompute t : ℚ) / ((ng : ℚ) + 1)) (((t : ℚ) + 1) / ((ng : ℚ) + 1)) := by
  unfold progFrac
  rw [Rat.mkRat_eq_div, Rat.mkRat_eq_div]
  push_cast
  rfl

lemma runIter_it (env : RunEnv) (ng : Nat) (s : RunState) :
    (runIter env ng s).it = s.it + 1 := rfl

lemma runIter_islands (env : RunEnv) (ng : Nat) (s : RunState) :
    (runIter env ng s).islands = env.recompute s.it := rfl

lemma runIter_events_length (env : RunEnv) (ng : Nat) (s : RunState) :
    (runIter env ng s).events.length = s.events.length + 1 := by
  show (s.events ++ [_]).length = s.events.length + 1
  simp

lemma runIter_progTexts (env : RunEnv) (ng : Nat) (s : RunState) :
    (runIter env ng s).progTexts = s.progTexts := rfl

lemma runIter_progs (env : RunEnv) (ng : Nat) (s : RunState) :
    (runIter env ng s).progs = s.progs ++ [progFrac env ng s.it] := rfl

lemma runLoop_zero (env : RunEnv) (ng : Nat) (s : RunState) :
    runLoop env ng 0 s = s := rfl

lemma runLoop_succ (env : RunEnv) (ng : Nat) (fuel : Nat) (s : RunState) :
    runLoop env ng (fuel + 1) s =
      if s.islands ≤ ng ∧ s.it ≤ ng then
        (if env.cancelFlag s.it then
          { runIter env ng s with progTexts := (runIter env ng s).progTexts ++ [ "Cancelled"] }
        else runLoop env ng fuel (runIter env ng s))
      else s := rfl

lemma runLoop_cancel (env : RunEnv) (ng : Nat) :
    ∀ (fuel : Nat) (s : RunState) (k : Nat),
      s.it + fuel = ng + 1 → s.it ≤ k → k ≤ ng → s.islands ≤ ng →
      (∀ t, s.it ≤ t → t < k → env.cancelFlag t = false) →
      (∀ t, s.it ≤ t → t < k → env.recompute t ≤ ng) →
      env.cancelFlag k = true →
      (runLoop env ng fuel s).events.length = s.events.length + (k + 1 - s.it) ∧
      (runLoop env ng fuel s).progTexts = s.progTexts ++ [ "Cancelled"] := by
  intro fuel
  induction fuel with
  | zero =>
    intro s k h1 h2 h3 _ _ _ _
    omega
  | succ fuel ih =>
    intro s k h1 h2 h3 h4 hflag hrec hk
    by_cases hik : s.it = k
    · have hc : env.cancelFlag s.it = true := by rw [hik]; exact hk
      rw [runLoop_succ, if_pos ⟨h4, le_trans h2 h3⟩, if_pos hc]
      constructor
      · show (runIter env ng s).events.length = s.events.length + (k + 1 - s.it)
        rw [runIter_events_length]
        omega
      · show (runIter env ng s).progTexts ++ [ "Cancelled"] = s.progTexts ++ [ "Cancelled"]
        rw [runIter_progTexts]
    · have hlt : s.it < k := lt_of_le_of_ne h2 hik
      have hc : env.cancelFlag s.it = false := hflag s.it (le_refl _) hlt
      rw [runLoop_succ, if_pos ⟨h4, le_trans h2 h3⟩,
        if_neg (show ¬ env.cancelFlag s.it = true by simp [hc])]
      have hiter := ih (runIter env ng s) k
        (by rw [runIter_it]; omega)
        (by rw [runIter_it]; omega)
        h3
        (by rw [runIter_islands]; exact hrec s.it (le_refl _) hlt)
        (fun t ht htk => hflag t (by rw [runIter_it] at ht; omega) htk)
        (fun t ht htk => hrec t (by rw [runIter_it] at ht; omega) htk)
        hk
      obtain ⟨e1, e2⟩ := hiter
      rw [runIter_events_length, runIter_it] at e1
      rw [runIter_progTexts] at e2
      exact ⟨by rw [e1]; omega, e2⟩

lemma chain_le_append_one {l : List ℚ} {a : ℚ}
    (h1 : List.Chain' (fun p q => p ≤ q) l) (h2 : ∀ x ∈ l, x ≤ a) :
    List.Chain' (fun p q => p ≤ q) (l ++ [a]) := by
  apply List.Chain'.append h1 (List.chain'_singleton a)
  intro x hx y hy
  simp only [List.head?_cons, Option.mem_def, Option.some.injEq] at hy
  subst hy
  obtain ⟨hne, hlast⟩ := List.mem_getLast?_eq_getLast hx
  exact h2 x (hlast ▸ List.getLast_mem hne)

lemma progFrac_nonneg (env : RunEnv) (ng t : Nat) : 0 ≤ progFrac env ng t := by
  rw [progFrac_eq]
  apply le_max_iff.mpr
  left
  positivity

lemma progFrac_le_one (env : RunEnv) (ng t : Nat)
    (hrec : env.recompute t ≤ ng + 1) (ht : t ≤ ng) : progFrac env ng t ≤ 1 := by
  rw [progFrac_eq]
  apply max_le
  · rw [div_le_one (by positivity)]
    exact_mod_cast hrec
  · rw [div_le_one (by positivity)]
    have : (t : ℚ) ≤ (ng : ℚ) := by exact_mod_cast ht
    linarith

lemma progFrac_mono (env : RunEnv) (ng t : Nat)
    (hmono : env.recompute t ≤ env.recompute (t + 1)) :
    progFrac env ng t ≤ progFrac env ng (t + 1) := by
  rw [progFrac_eq, progFrac_eq]
  apply max_le_max
  · have : (env.recompute t : ℚ) ≤ (env.recompute (t + 1) : ℚ) := by exact_mod_cast hmono
    gcongr
  · have : (t : ℚ) + 1 ≤ ((t : ℚ) + 1) + 1 := by linarith
    push_cast
    gcongr

lemma runLoop_progs_nonneg (env : RunEnv) (ng : Nat) :
    ∀ (fuel : Nat) (s : RunState), (∀ x ∈ s.progs, 0 ≤ x) →
      ∀ x ∈ (runLoop env ng fuel s).progs, 0 ≤ x := by
  intro fuel
  induction fuel with
  | zero => exact fun s h => h
  | succ fuel ih =>
    intro s h
    have hstep : ∀ x ∈ (runIter env ng s).progs, 0 ≤ x := by
      intro x hx
      rw [runIter_progs] at hx
      rcases List.mem_append.1 hx with h' | h'
      · exact h x h'
      · rw [List.mem_singleton] at h'
        subst h'
        exact progFrac_nonneg env ng s.it
    rw [runLoop_succ]
    split
    · split
      · exact hstep
      · exact ih (runIter env ng s) hstep
    · exact h

lemma runLoop_progs_le_one (env : RunEnv) (ng : Nat)
    (hrec : ∀ t, env.recompute t ≤ ng + 1) :
    ∀ (fuel : Nat) (s : RunState), (∀ x ∈ s.progs, x ≤ 1) →
      ∀ x ∈ (runLoop env ng fuel s).progs, x ≤ 1 := by
  intro fuel
  induction fuel with
  | zero => exact fun s h => h
  | succ fuel ih =>
    intro s h
    rw [runLoop_succ]
    split
    · rename_i hguard
      have hstep : ∀ x ∈ (runIter env ng s).progs, x ≤ 1 := by
        intro x hx
        rw [runIter_progs] at hx
        rcases List.mem_append.1 hx with h' | h'
        · exact h x h'
        · rw [List.mem_singleton] at h'
          subst h'
          exact progFrac_le_one env ng s.it (hrec s.it) hguard.2
      split
      · exact hstep
      · exact ih (runIter env ng s) hstep
    · exact h

lemma runLoop_progs_chain (env : RunEnv) (ng : Nat)
    (hmono : ∀ t, env.recompute t ≤ env.recompute (t + 1)) :
    ∀ (fuel : Nat) (s : RunState),
      List.Chain' (fun p q => p ≤ q) s.progs →
      (∀ x ∈ s.progs, x ≤ progFrac env ng s.it) →
      List.Chain' (fun p q => p ≤ q) (runLoop env ng fuel s).progs := by
  intro fuel
  induction fuel with
  | zero => exact fun s h _ => h
  | succ fuel ih =>
    intro s hchain hbound
    have hchain' : List.Chain' (fun p q => p ≤ q) (runIter env ng s).progs := by
      rw [runIter_progs]
      exact chain_le_append_one hchain hbound
    rw [runLoop_succ]
    split
    · split
      · exact hchain'
      · apply ih (runIter env ng s) hchain'
        intro x hx
        rw [runIter_progs] at hx
        rw [runIter_it]
        rcases List.mem_append.1 hx with h' | h'
        · exact le_trans (hbound x h') (progFrac_mono env ng s.it (hmono s.it))
        · rw [List.mem_singleton] at h'
          subst h'
          exact progFrac_mono env ng s.it (hmono s.it)
    · exact hchain

/-! ### Claim theorems -/

/-- Input exhibiting the random-fallback defect of
`remove_probability_based`: one overload candidate, branch 5, whose
overload probability 1/20 is below `min_prob = 1/10`, with a non-empty
loading array. -/
def c1Data : CdfData := ⟨[5], [2], [mkRat 1 20], [mkRat 1 2]⟩

/-- The call `remove_probability_based` makes on `c1Data` with the source's
fixed thresholds.  `np.random.randint(0, len(idx))` with `len(idx) = 1`
necessarily returns 0, so the random draw is 0. -/
def c1Call : NumericalCircuit × List Nat × String :=
  remove_probability_based ⟨fun _ => true⟩ (fun _ => c1Data) 1 (mkRat 1 10) 0

/-- C1: the claim says the branch disabled by the random-overload fallback
is a member of the candidate index list.  The code instead uses the raw
draw `np.random.randint(0, len(idx))` itself as the branch index: on
`c1Data` (sole candidate branch 5, probability below threshold) it returns
index list `[0]` with criteria "Random with overloads", disables branch 0
and leaves candidate branch 5 enabled — `0` is not a member of the
candidate list `[5]`. -/
theorem claim_C1_eval :
    c1Call.2.1 = [0] ∧
    c1Call.2.2 = "Random with overloads" ∧
    (0 : Nat) ∉ c1Data.idx ∧
    c1Call.1.branch_states 0 = false ∧
    c1Call.1.branch_states 5 = true := by
  decide

/-- C2 counterexample: with 2 initial islands, tolerance 1 and 3 buses the
sum equals the bus count exactly; the code's bound is 3 while the claimed
formula `min(initial + tolerance, buses - 1)` gives 2. -/
theorem claim_C2_counterexample :
    n_grids 2 3 1 = 3 ∧ min (2 + 1) (3 - 1) = 2 ∧ n_grids 2 3 1 ≠ min (2 + 1) (3 - 1) := by
  decide

/-- C2 amended: the bound never exceeds the bus count, and it equals
`min(initial + tolerance, buses - 1)` exactly when the sum differs from the
bus count; when the sum equals the bus count the bound is the bus count
itself (one more than the claimed clamp). -/
theorem claim_C2_amended (islands buses tol : Nat) :
    n_grids islands buses tol ≤ buses ∧
    (islands + tol ≠ buses → n_grids islands buses tol = min (islands + tol) (buses - 1)) ∧
    (islands + tol = buses → n_grids islands buses tol = buses) := by
  unfold n_grids
  refine ⟨?_, ?_, ?_⟩ <;> split <;> omega

/-- C2 amended, witnessed at the boundary input. -/
theorem claim_C2_amended_witness : n_grids 2 3 1 = 3 :=
  (claim_C2_amended 2 3 1).2.2 rfl

/-- A result log with no events. -/
def emptyLog : CascadingResults := ⟨CascadeType.LatinHypercube, []⟩

/-- A result log with a single event. -/
def oneEventLog : CascadingResults :=
  ⟨CascadeType.LatinHypercube, [⟨[1, 2], 0, "overload"⟩]⟩

/-- C3: the claim says `get_failed_idx` returns an empty sequence on an
empty log and the event-order concatenation on a non-empty one, never
raising.  The code returns the initial `None` (not an empty sequence) on an
empty log, and on any non-empty log evaluates `self.events[i][0]`, which
raises `TypeError` because `CascadingReportElement` is not subscriptable.
`get_table` on an empty log does return an empty table. -/
theorem claim_C3_eval :
    emptyLog.get_failed_idx = .ok none ∧
    emptyLog.get_table = [] ∧
    oneEventLog.get_failed_idx =
      .error "TypeError: CascadingReportElement object is not subscriptable" ∧
    (∀ (r : CascadingResults) (e : CascadingReportElement) (es : List CascadingReportElement),
      r.events = e :: es →
      r.get_failed_idx =
        .error "TypeError: CascadingReportElement object is not subscriptable") := by
  refine ⟨rfl, rfl, rfl, ?_⟩
  intro r e es h
  unfold CascadingResults.get_failed_idx
  rw [h]
  rfl

/-- C3, witnessed: the general non-empty-log error instantiated at the
one-event log. -/
theorem claim_C3_eval_witness :
    oneEventLog.get_failed_idx =
      .error "TypeError: CascadingReportElement object is not subscriptable" :=
  claim_C3_eval.2.2.2 oneEventLog ⟨[1, 2], 0, "overload"⟩ [] rfl

/-- A fresh, unrun controller: step counter 0, empty log. -/
def freshController : Cascading := ⟨none, 0, ⟨CascadeType.LatinHypercube, []⟩⟩

/-- C6: the claim says the first `perform_step_run` applies
deterministic-threshold removal, appends one event, advances the step
counter and signals completion without raising.  The code's call
`self.remove_elements(self.grid, idx=self.triggering_idx)` omits the
required positional argument `loading_vector`, so the very first step (and
every later one) raises `TypeError` before any event is appended or the
step counter is advanced; the subsequent two-argument
`CascadingReportElement` construction would equally raise. -/
theorem claim_C6_eval :
    freshController.current_step = 0 ∧
    freshController.perform_step_run =
      .error "TypeError: remove_elements missing 1 required positional argument loading_vector" ∧
    (∀ c : Cascading, c.perform_step_run =
      .error "TypeError: remove_elements missing 1 required positional argument loading_vector") := by
  refine ⟨rfl, rfl, ?_⟩
  intro c
  unfold Cascading.perform_step_run
  split <;> rfl

lemma get_table_loop_length :
    ∀ (es : List CascadingReportElement) (k : Nat), (get_table_loop k es).length = es.length := by
  intro es
  induction es with
  | nil => intro k; rfl
  | cons e es ih =>
    intro k
    simp [get_table_loop, ih (k + 1)]

lemma get_table_loop_getD :
    ∀ (es : List CascadingReportElement) (k i : Nat), i < es.length →
      (get_table_loop k es).getD i ( "", 0, "") =
        ( "Step " ++ toString (k + i + 1), (es.getD i default).removed_idx.length,
          (es.getD i default).criteria) := by
  intro es
  induction es with
  | nil =>
    intro k i h
    simp at h
  | cons e es ih =>
    intro k i h
    cases i with
    | zero => rfl
    | succ i =>
      have h' : i < es.length := by simpa using h
      have := ih (k + 1) i h'
      show (get_table_loop (k + 1) es).getD i ( "", 0, "") = _
      rw [this]
      have harith : k + 1 + i + 1 = k + (i + 1) + 1 := by omega
      rw [harith]
      rfl

/-- C8: `get_table` yields exactly one row per logged event, in event
order; the `i`-th row (0-based) carries the step label "Step i+1", the
number of that event's removed indices, and that event's criteria string. -/
theorem claim_C8 (r : CascadingResults) :
    r.get_table.length = r.events.length ∧
    ∀ i, i < r.events.length →
      r.get_table.getD i ( "", 0, "") =
        ( "Step " ++ toString (i + 1), (r.events.getD i default).removed_idx.length,
          (r.events.getD i default).criteria) := by
  constructor
  · exact get_table_loop_length r.events 0
  · intro i h
    have := get_table_loop_getD r.events 0 i h
    simpa using this

/-- C8, witnessed on a one-event log. -/
theorem claim_C8_witness :
    (⟨CascadeType.PowerFlow, [⟨[7, 9], 0, "ov"⟩]⟩ : CascadingResults).get_table.getD 0
        ( "", 0, "") = ( "Step 1", 2, "ov") := by
  have h := (claim_C8 ⟨CascadeType.PowerFlow, [⟨[7, 9], 0, "ov"⟩]⟩).2 0 (by decide)
  exact h.trans (by decide)

/-- C10: with `idx=None`, `remove_elements` succeeds on every non-empty
loading vector (the maximum in the fallback branch is well defined), while
on an empty loading vector with no explicit indices the call has no result:
`load.max()` is a reduction over a zero-size array and raises. -/
theorem claim_C10 :
    (∀ (c : NumericalCircuit) (loading : List ℚ), loading ≠ [] →
      isOkE (remove_elements c loading none) = true) ∧
    (∀ c : NumericalCircuit, remove_elements c [] none =
      .error "ValueError: zero-size array to reduction operation maximum") := by
  constructor
  · intro c loading h
    cases loading with
    | nil => exact absurd rfl h
    | cons x xs =>
      unfold remove_elements
      dsimp only
      split
      · simp only [absList, List.map_cons, pymax, isOkE]
      · simp only [isOkE]
  · intro c
    rfl

/-- C10, witnessed: a singleton loading vector succeeds and the empty one
raises. -/
theorem claim_C10_witness :
    isOkE (remove_elements ⟨fun _ => true⟩ [mkRat 1 2] none) = true ∧
    remove_elements ⟨fun _ => true⟩ ([] : List ℚ) none =
      .error "ValueError: zero-size array to reduction operation maximum" :=
  ⟨claim_C10.1 ⟨fun _ => true⟩ [mkRat 1 2] (by decide), claim_C10.2 ⟨fun _ => true⟩⟩

lemma mem_npWhere_abs (loading : List ℚ) (p : ℚ → Bool) (i : Nat) :
    i ∈ npWhere (absList loading) p ↔
      i < loading.length ∧ p |loading.getD i 0| = true := by
  rw [mem_npWhere, absList_length]
  constructor
  · rintro ⟨h1, h2⟩
    exact ⟨h1, by rwa [absList_getD h1] at h2⟩
  · rintro ⟨h1, h2⟩
    exact ⟨h1, by rwa [absList_getD h1]⟩

lemma pymax_ge_iff {l : List ℚ} {m z : ℚ} (hm : pymax l = some m) :
    m ≤ z ↔ ∀ y ∈ l, y ≤ z := by
  constructor
  · intro h y hy
    exact le_trans (pymax_is_ub hm y hy) h
  · intro h
    exact h m (pymax_mem hm)

lemma forall_mem_absList {l : List ℚ} {z : ℚ} :
    (∀ y ∈ absList l, y ≤ z) ↔ (∀ j, j < l.length → |l.getD j 0| ≤ z) := by
  constructor
  · intro h j hj
    have hmem : (absList l).getD j 0 ∈ absList l := getD_mem (by rwa [absList_length])
    have h2 := h _ hmem
    rwa [absList_getD hj] at h2
  · intro h y hy
    rw [absList] at hy
    obtain ⟨a, ha, rfl⟩ := List.mem_map.1 hy
    obtain ⟨j, hj, hja⟩ := List.mem_iff_getElem.1 ha
    rw [← hja]
    have := h j hj
    rwa [List.getD_eq_getElem _ _ hj] at this

lemma remove_elements_none_overload (c : NumericalCircuit) (loading : List ℚ)
    (hov : ∃ i, i < loading.length ∧ 1 < |loading.getD i 0|) :
    remove_elements c loading none =
      .ok (⟨disableAll c.branch_states (npWhere (absList loading) (fun v => decide (1 < v)))⟩,
        npWhere (absList loading) (fun v => decide (1 < v))) := by
  obtain ⟨i0, hi0, hgt⟩ := hov
  have hmem : i0 ∈ npWhere (absList loading) (fun v => decide (1 < v)) :=
    (mem_npWhere_abs loading _ i0).mpr ⟨hi0, by rw [decide_eq_true_eq]; exact hgt⟩
  have hne : (npWhere (absList loading) (fun v => decide (1 < v))).length ≠ 0 := by
    intro h0
    rw [List.length_eq_zero] at h0
    rw [h0] at hmem
    cases hmem
  unfold remove_elements
  dsimp only
  rw [if_neg hne]

lemma remove_elements_none_fallback (c : NumericalCircuit) (x : ℚ) (xs : List ℚ)
    (hle : ∀ i, i < (x :: xs).length → |(x :: xs).getD i 0| ≤ 1) :
    remove_elements c (x :: xs) none =
      .ok (⟨disableAll c.branch_states
            (npWhere (absList (x :: xs))
              (fun v => decide ((xs.map (fun y => |y|)).foldl max |x| ≤ v)))⟩,
        npWhere (absList (x :: xs))
          (fun v => decide ((xs.map (fun y => |y|)).foldl max |x| ≤ v))) := by
  have hidx1 : npWhere (absList (x :: xs)) (fun v => decide (1 < v)) = [] := by
    apply List.eq_nil_iff_forall_not_mem.mpr
    intro i hi
    rw [mem_npWhere_abs] at hi
    obtain ⟨h1, h2⟩ := hi
    rw [decide_eq_true_eq] at h2
    exact absurd (hle i h1) (not_le.mpr h2)
  unfold remove_elements
  dsimp only
  rw [hidx1]
  rfl

/-- C5: with `idx=None` (and a non-empty loading vector), the removed index
set is exactly the set of positions whose absolute loading exceeds 1.0
when any such position exists, and otherwise exactly the set of positions
tied for the maximum absolute loading (all ties included). -/
theorem claim_C5 (c : NumericalCircuit) (loading : List ℚ) (hne : loading ≠ []) :
    isOkE (remove_elements c loading none) = true ∧
    ((∃ i, i < loading.length ∧ 1 < |loading.getD i 0|) →
      ∀ i, i ∈ okIdx (remove_elements c loading none) ↔
        (i < loading.length ∧ 1 < |loading.getD i 0|)) ∧
    ((∀ i, i < loading.length → |loading.getD i 0| ≤ 1) →
      ∀ i, i ∈ okIdx (remove_elements c loading none) ↔
        (i < loading.length ∧
          ∀ j, j < loading.length → |loading.getD j 0| ≤ |loading.getD i 0|)) := by
  by_cases hov : ∃ i, i < loading.length ∧ 1 < |loading.getD i 0|
  · have heq := remove_elements_none_overload c loading hov
    refine ⟨by rw [heq]; rfl, ?_, ?_⟩
    · intro _ i
      rw [heq]
      simp only [okIdx]
      rw [mem_npWhere_abs]
      simp only [decide_eq_true_eq]
    · intro hle
      obtain ⟨i0, hi0, hgt⟩ := hov
      exact absurd (hle i0 hi0) (not_le.mpr hgt)
  · push_neg at hov
    cases loading with
    | nil => exact absurd rfl hne
    | cons x xs =>
      have heq := remove_elements_none_fallback c x xs hov
      have hm : pymax (absList (x :: xs)) = some ((xs.map (fun y => |y|)).foldl max |x|) := by
        simp [absList, pymax]
      refine ⟨by rw [heq]; rfl, ?_, ?_⟩
      · intro hov2
        obtain ⟨i0, hi0, hgt⟩ := hov2
        exact absurd (hov i0 hi0) (not_le.mpr hgt)
      · intro _ i
        rw [heq]
        simp only [okIdx]
        rw [mem_npWhere_abs]
        constructor
        · rintro ⟨h1, h2⟩
          rw [decide_eq_true_eq] at h2
          refine ⟨h1, ?_⟩
          exact forall_mem_absList.mp ((pymax_ge_iff hm).mp h2)
        · rintro ⟨h1, h2⟩
          refine ⟨h1, ?_⟩
          rw [decide_eq_true_eq]
          exact (pymax_ge_iff hm).mpr (forall_mem_absList.mpr h2)

/-- C5, witnessed: loadings `[1.2, 0.5, 0.9]` succeed with index 0 removed
(the only overload), and loadings `[0.9, 0.5, 0.9]` remove exactly the tied
maxima `[0, 2]`. -/
theorem claim_C5_witness :
    isOkE (remove_elements ⟨fun _ => true⟩ [mkRat 6 5, mkRat 1 2, mkRat 9 10] none) = true ∧
    ((0 : Nat) ∈ okIdx (remove_elements ⟨fun _ => true⟩ [mkRat 6 5, mkRat 1 2, mkRat 9 10] none) ↔
      (0 < ([mkRat 6 5, mkRat 1 2, mkRat 9 10] : List ℚ).length ∧
        1 < |([mkRat 6 5, mkRat 1 2, mkRat 9 10] : List ℚ).getD 0 0|)) ∧
    okIdx (remove_elements ⟨fun _ => true⟩ [mkRat 9 10, mkRat 1 2, mkRat 9 10] none) = [0, 2] :=
  ⟨(claim_C5 ⟨fun _ => true⟩ [mkRat 6 5, mkRat 1 2, mkRat 9 10] (by decide)).1,
   (claim_C5 ⟨fun _ => true⟩ [mkRat 6 5, mkRat 1 2, mkRat 9 10] (by decide)).2.1
     ⟨0, by decide⟩ 0,
   by decide⟩

/-- C9: both removal heuristics write the branch-state array exactly at the
indices they return: every returned index is set to `false` and every other
entry keeps its previous value (so in particular no entry is ever switched
from disabled back to enabled — the new value is either `false` or the old
one). -/
theorem claim_C9 :
    (∀ (c : NumericalCircuit) (loading : List ℚ) (idxo : Option (List Nat))
       (c2 : NumericalCircuit) (is : List Nat),
       remove_elements c loading idxo = .ok (c2, is) →
       ∀ j, c2.branch_states j = if j ∈ is then false else c.branch_states j) ∧
    (∀ (c : NumericalCircuit) (results : ℚ → CdfData) (mv mp : ℚ) (r : Nat) (j : Nat),
       (remove_probability_based c results mv mp r).1.branch_states j =
         if j ∈ (remove_probability_based c results mv mp r).2.1 then false
         else c.branch_states j) := by
  constructor
  · intro c loading idxo c2 is heq j
    cases idxo with
    | some is0 =>
      unfold remove_elements at heq
      rw [Except.ok.injEq, Prod.mk.injEq] at heq
      obtain ⟨h1, h2⟩ := heq
      rw [← h1, ← h2]
      exact disableAll_apply is0 c.branch_states j
    | none =>
      unfold remove_elements at heq
      dsimp only at heq
      split at heq
      · split at heq
        · cases heq
        · rw [Except.ok.injEq, Prod.mk.injEq] at heq
          obtain ⟨h1, h2⟩ := heq
          rw [← h1, ← h2]
          exact disableAll_apply _ c.branch_states j
      · rw [Except.ok.injEq, Prod.mk.injEq] at heq
        obtain ⟨h1, h2⟩ := heq
        rw [← h1, ← h2]
        exact disableAll_apply _ c.branch_states j
  · intro c results mv mp r j
    unfold remove_probability_based
    dsimp only
    have hinv := probFold_frame (results mv) mp c.branch_states
      (List.range (results mv).idx.length) ⟨c.branch_states, [], false, "None"⟩
      (by intro j'; simp)
    set a := (List.range (results mv).idx.length).foldl (probStep (results mv) mp)
      ⟨c.branch_states, [], false, "None"⟩ with ha
    by_cases hrem : a.any_removed
    · rw [if_pos hrem]
      exact hinv j
    · rw [if_neg hrem]
      have haeq : a = ⟨c.branch_states, [], false, "None"⟩ :=
        probFold_not_removed (results mv) mp _ _ (by simpa using hrem)
      cases hload : (results mv).loading with
      | nil =>
        rw [haeq]
        simp
      | cons x xs =>
        dsimp only
        split
        · rw [haeq]
          dsimp only
          by_cases hj : j = r
          · simp [setFalse, hj]
          · simp [setFalse, hj]
        · rw [haeq]
          dsimp only
          by_cases hj : j = (npWhere (x :: xs) (fun v => decide (v = xs.foldl max x))).getD 0 0
          · simp [setFalse, hj]
          · simp [setFalse, hj]

/-- C9, witnessed: `remove_elements` with loading `[2]` removes index 0 and
sets it to `false`; `remove_probability_based` with candidate branch 3 at
probability 1/2 disables exactly branch 3. -/
theorem claim_C9_witness :
    ((⟨disableAll (fun _ => true) [0]⟩ : NumericalCircuit).branch_states 0 =
      if (0 : Nat) ∈ ([0] : List Nat) then false
      else (⟨fun _ => true⟩ : NumericalCircuit).branch_states 0) ∧
    ((remove_probability_based ⟨fun _ => true⟩
        (fun _ => ⟨[3], [2], [mkRat 1 2], [1]⟩) 1 (mkRat 1 10) 0).1.branch_states 3 =
      if (3 : Nat) ∈ (remove_probability_based ⟨fun _ => true⟩
        (fun _ => ⟨[3], [2], [mkRat 1 2], [1]⟩) 1 (mkRat 1 10) 0).2.1 then false
      else (⟨fun _ => true⟩ : NumericalCircuit).branch_states 3) :=
  ⟨claim_C9.1 ⟨fun _ => true⟩ [2] none ⟨disableAll (fun _ => true) [0]⟩ [0] rfl 0,
   claim_C9.2 ⟨fun _ => true⟩ (fun _ => ⟨[3], [2], [mkRat 1 2], [1]⟩) 1 (mkRat 1 10) 0 3⟩

/-- Environment for the cancellation scenario: 5 buses, 1 initial island,
tolerance 1 (bound 2), a solver reporting no candidate branches, and the
cancellation flag raised during the first iteration. -/
def envC4 : RunEnv :=
  ⟨1, 5, 1, fun _ => true, fun _ => ⟨[], [], [], []⟩, fun _ => 1, fun _ => 0, fun _ => true⟩

/-- C4 counterexample: cancelling during iteration 1 leaves exactly one
event in the log, but the final status notification emitted for the run is
"Done!" — `run` unconditionally emits the completion notification after the
break — so the run's last status text is not "Cancelled" ("Cancelled" is
emitted earlier, at `cancel()` call time). -/
theorem claim_C4_counterexample :
    (run envC4).events.length = 1 ∧
    (run envC4).progTexts.getLast? = some "Done!" ∧
    (run envC4).progTexts.getLast? ≠ some "Cancelled" := by
  decide

/-- C4 amended: if the end-of-iteration check of 0-based iteration `k` is
the first to observe the cancellation flag (and the loop guard held up to
that point), the log contains exactly `k + 1` events — one per completed
iteration, none for a not-yet-started one — and the status-text trace of
the run is exactly "Running cascading failure...", then "Cancelled"
(emitted by `cancel()` itself at call time), then the terminal "Done!"; the
run's final notification is therefore "Done!", not "Cancelled". -/
theorem claim_C4_amended (env : RunEnv) (k : Nat)
    (hk : k ≤ n_grids env.initial_islands env.bus_count env.max_additional_islands)
    (hini : env.initial_islands ≤ n_grids env.initial_islands env.bus_count env.max_additional_islands)
    (hrec : ∀ t, t < k →
      env.recompute t ≤ n_grids env.initial_islands env.bus_count env.max_additional_islands)
    (hflag : ∀ t, t < k → env.cancelFlag t = false)
    (hset : env.cancelFlag k = true) :
    (run env).events.length = k + 1 ∧
    (run env).progTexts = [ "Running cascading failure...", "Cancelled", "Done!"] := by
  have hcancel := runLoop_cancel env
    (n_grids env.initial_islands env.bus_count env.max_additional_islands)
    (n_grids env.initial_islands env.bus_count env.max_additional_islands + 1)
    { islands := env.initial_islands
      it := 0
      branch_states := env.branch_states0
      events := []
      progs := []
      progTexts := [ "Running cascading failure..."] }
    k (by dsimp only; omega) (Nat.zero_le k) hk hini
    (fun t _ ht => hflag t ht) (fun t _ ht => hrec t ht) hset
  obtain ⟨e1, e2⟩ := hcancel
  constructor
  · show (runLoop env _ _ _).events.length = k + 1
    rw [e1]
    simp
  · show (runLoop env _ _ _).progTexts ++ [ "Done!"] =
      [ "Running cascading failure...", "Cancelled", "Done!"]
    rw [e2]
    rfl

/-- C4 amended, witnessed on `envC4` with cancellation at iteration 0. -/
theorem claim_C4_amended_witness :
    (run envC4).events.length = 0 + 1 ∧
    (run envC4).progTexts = [ "Running cascading failure...", "Cancelled", "Done!"] :=
  claim_C4_amended envC4 0 (by decide) (by decide)
    (fun t ht => absurd ht (Nat.not_lt_zero t))
    (fun t ht => absurd ht (Nat.not_lt_zero t))
    rfl

/-- Environment exhibiting a progress fraction above 1: 10 buses, 1
initial island, tolerance 1 (bound 2); the first solver call reports three
certain overloads (branches 2, 3, 4), all removed at once, after which the
recompile reports 4 islands — more than bound + 1 = 3. -/
def envC7x : RunEnv :=
  ⟨1, 10, 1, fun _ => true,
   fun _ => ⟨[2, 3, 4], [0, 0, 0], [mkRat 1 2, mkRat 1 2, mkRat 1 2], [2, 2, 2]⟩,
   fun _ => 4, fun _ => 0, fun _ => false⟩

/-- C7 counterexample: on `envC7x` the single reported progress fraction is
4/3 > 1 (the emitted percentage is above 100), refuting the claim that the
fraction always lies in [0, 1]: the code never clamps the island-count
term. -/
theorem claim_C7_counterexample :
    (run envC7x).progs = [mkRat 4 3] ∧ ¬ (∀ x ∈ (run envC7x).progs, x ≤ 1) := by
  decide

/-- C7 amended: every per-iteration progress fraction is nonnegative; it is
bounded by 1 — so the emitted percentage lies in [0, 100] — provided each
recompiled island count stays at most `n_grids + 1` (without that proviso
the fraction can exceed 1); and the fractions reported across one run are
monotonically non-decreasing whenever the recompiled island counts are
non-decreasing (removing branches never merges islands). -/
theorem claim_C7_amended (env : RunEnv) :
    (∀ x ∈ (run env).progs, 0 ≤ x) ∧
    ((∀ t, env.recompute t ≤
        n_grids env.initial_islands env.bus_count env.max_additional_islands + 1) →
      ∀ x ∈ (run env).progs, x ≤ 1) ∧
    ((∀ t, env.recompute t ≤ env.recompute (t + 1)) →
      List.Chain' (fun p q => p ≤ q) (run env).progs) := by
  refine ⟨?_, ?_, ?_⟩
  · show ∀ x ∈ (runLoop env _ _ _).progs, 0 ≤ x
    apply runLoop_progs_nonneg
    intro x hx
    cases hx
  · intro hrec
    show ∀ x ∈ (runLoop env _ _ _).progs, x ≤ 1
    apply runLoop_progs_le_one env _ hrec
    intro x hx
    cases hx
  · intro hmono
    show List.Chain' (fun p q => p ≤ q) (runLoop env _ _ _).progs
    apply runLoop_progs_chain env _ hmono
    · exact List.chain'_nil
    · intro x hx
      cases hx

/-- Environment for the monotone-progress witness: 10 buses, 1 initial
island, tolerance 1, a solver reporting no branches, and every recompile
returning 2 islands; the run reports fractions 2/3, 2/3, 1. -/
def envW7 : RunEnv :=
  ⟨1, 10, 1, fun _ => true, fun _ => ⟨[], [], [], []⟩, fun _ => 2, fun _ => 0, fun _ => false⟩

/-- C7 amended, witnessed on `envW7`: the first fraction is nonnegative,
the last is at most 1, and the whole reported sequence is non-decreasing. -/
theorem claim_C7_amended_witness :
    (0 : ℚ) ≤ (run envW7).progs.getD 0 0 ∧
    (run envW7).progs.getD 2 0 ≤ 1 ∧
    List.Chain' (fun p q => p ≤ q) (run envW7).progs :=
  ⟨(claim_C7_amended envW7).1 ((run envW7).progs.getD 0 0) (by decide),
   (claim_C7_amended envW7).2.1 (fun _ => show (2 : Nat) ≤ n_grids 1 10 1 + 1 by decide)
     ((run envW7).progs.getD 2 0) (by decide),
   (claim_C7_amended envW7).2.2 (fun _ => Nat.le_refl 2)⟩

end BlackOutDriver
